import Mathlib

/-!
Shallow embedding of `src/python/neuro_kl/kl_tools.py` (Python 2, numpy/scipy).

Modelling conventions:
* Float arrays are modelled as `List ℚ` (exact rational arithmetic) except
  where a genuinely transcendental value appears (`log2`, `digamma`), which
  is modelled over `ℝ`; `scipy.special.digamma` and the natural logarithm
  are external library functions and are passed in as opaque parameters.
* Fallible Python code is modelled in `Except Err`.  Python resolves a bare
  (unqualified) name at call time against the module's global namespace; the
  module body of `kl_tools.py` binds only `scipy`, `log2`, `digamma` and its
  own `def`s, so the bare names `log`, `array` and `zeros` used inside some
  function bodies are unbound and raise `NameError` when the line that uses
  them executes.  `nameBound` records the module namespace, and `require`
  models the evaluation of one bare name.
-/

/-- The exceptions the embedded code can signal.  `insufficientData` is
modelled from the spec (§7 names an `InsufficientDataError`); no code under
`src/` raises it, it exists only so that statements about it can be written. -/
inductive Err where
  | nameError (name : String)
  | valueError (msg : String)
  | exception (msg : String)
  | assertionError
  | keyError (key : ℕ)
  | indexError
  | zeroDivisionError
  | insufficientData
  deriving DecidableEq, Repr

/-- The global names bound at module level of `kl_tools.py`: the three import
lines (`import scipy`, `from scipy import log2`,
`from scipy.special import digamma`) and the module's own `def`s.  In
particular `log`, `array`, `zeros` and `outer` are NOT bound (and are not
Python builtins). -/
def nameBound : String → Bool
  | "scipy" | "log2" | "digamma" => true
  | "kl" | "entropy" | "mean_H_estimate" | "mean_KL_estimate" => true
  | "kl_estimation" | "h_estimation" | "spikes2states" | "states2distr" => true
  | "states2dict" | "spikes2indep_dict" | "_check_dict_consistency" => true
  | "transition_matrix" | "states2transition_dict" => true
  | _ => false

/-- Evaluating a bare name: `NameError` when the module namespace does not
bind it. -/
def require (x : String) : Except Err Unit :=
  if nameBound x then Except.ok () else Except.error (Err.nameError x)

/-- A block partition: the Python dict mapping a block count `d` to the list
of `d` per-block count vectors, as an association list. -/
abbrev Partition := List (ℕ × List (List ℚ))

/-- `dict[d]` with Python's `KeyError`. -/
def lookupKey (distr : Partition) (d : ℕ) : Except Err (List (List ℚ)) :=
  match distr.lookup d with
  | some v => Except.ok v
  | none => Except.error (Err.keyError d)

/-- `list[i]` with Python's `IndexError`. -/
def getIdx (l : List (List ℚ)) (i : ℕ) : Except Err (List ℚ) :=
  match l.get? i with
  | some v => Except.ok v
  | none => Except.error Err.indexError

deriving instance DecidableEq for Except

/-! ## `spikes2states` -/

/-- One row's state number: `(row * pow2).sum()` with
`pow2 = [2**(C-1), ..., 2**0]`, i.e. channel 0 is the most significant bit. -/
def rowState (C : ℕ) (row : List ℚ) : ℚ :=
  ∑ k in Finset.range C, row.getD k 0 * ((2 ^ (C - 1 - k) : ℕ) : ℚ)

/-- `spikes2states(spikes)`: raises
`ValueError('Input array must be binary')` unless
`scipy.all(scipy.logical_and(spikes>=0, spikes<=1))` — note the source checks
membership in the interval `[0, 1]`, not in `{0, 1}` — then returns the
binary-weighted state of each row. -/
def spikes2states (spikes : List (List ℚ)) : Except Err (List ℚ) :=
  if spikes.all fun row => row.all fun x => decide (0 ≤ x) && decide (x ≤ 1) then
    let nchannels := (spikes.headD []).length
    Except.ok (spikes.map fun row => rowState nchannels row)
  else
    Except.error (Err.valueError "Input array must be binary")

/-! ## `states2distr` -/

/-- Membership of a state `s` in histogram bin `j` for
`bins = scipy.arange(2**nchannels + 1)`: numpy bins are `[j, j+1)` except the
last, which is the closed interval `[nbins-1, nbins]`. -/
def histBin (nbins j s : ℕ) : Bool :=
  if j = nbins - 1 then decide (j ≤ s) && decide (s ≤ nbins) else decide (s = j)

/-- `states2distr(states, nchannels, normed)`: the histogram of `states` over
`2**nchannels` unit bins, as float counts (`normed=True` divides by the total
in-range count, unit bin widths). -/
def states2distr (states : List ℕ) (nchannels : ℕ) (normed : Bool) : List ℚ :=
  let nbins := 2 ^ nchannels
  let counts : List ℚ :=
    (List.range nbins).map fun j => ((states.countP (histBin nbins j) : ℕ) : ℚ)
  if normed then counts.map (· / counts.sum) else counts

-- quick sanity examples (concrete evaluation of the embedded code)
example : spikes2states [[0, 0], [1, 0], [0, 1], [1, 1]] = Except.ok [0, 2, 1, 3] := by
  norm_num [spikes2states, rowState, Finset.sum_range_succ]

example : states2distr [0, 2, 1, 3] 2 false = [1, 1, 1, 1] := by
  norm_num [states2distr, histBin, List.range_succ, List.countP_cons]

example : spikes2states [[1/2]] = Except.ok [1/2] := by
  norm_num [spikes2states, rowState, Finset.sum_range_succ]

/-! ## Direct estimators -/

/-- `entropy(p)`: raises `Exception('Zero bins found')` when any bin is zero,
otherwise returns `(p*log2(p)).sum()` — note the POSITIVE sum
`∑ p(x)·log2 p(x)` (the docstring calls it "negative entropy"). -/
noncomputable def entropy (p : List ℚ) : Except Err ℝ :=
  if p.any fun x => decide (x = 0) then
    Except.error (Err.exception "Zero bins found")
  else
    Except.ok ((p.map fun x : ℚ => (x : ℝ) * Real.logb 2 (x : ℝ)).sum)

/-! ## Bayesian estimators.  `digamma` (ψ) is `scipy.special.digamma`, an
external special function, and `lnf` is what the bare name `log` would
denote if it were bound; both are opaque parameters. -/

/-- `mean_H_estimate(alpha)`: computes
`res = (alpha*digamma(alpha+1)).sum()/alpha0 - digamma(alpha0+1)` and then
evaluates `return res / log(2.)` — the bare name `log` is unbound, so the
return line raises `NameError`. -/
noncomputable def mean_H_estimate (ψ lnf : ℝ → ℝ) (alpha : List ℚ) : Except Err ℝ := do
  let alpha0 : ℚ := alpha.sum
  let res : ℝ :=
    (alpha.map fun a => (a : ℝ) * ψ ((a : ℝ) + 1)).sum / (alpha0 : ℝ) - ψ ((alpha0 : ℝ) + 1)
  let _ ← require "log"
  pure (res / lnf 2)

/-- `mean_KL_estimate(alpha, beta)`: evaluates `mean_H_estimate(alpha)` (which
raises `NameError` on the unbound `log`) minus the cross term, itself divided
by the unbound `log(2.)`. -/
noncomputable def mean_KL_estimate (ψ lnf : ℝ → ℝ) (alpha beta : List ℚ) : Except Err ℝ := do
  let alpha0 : ℚ := alpha.sum
  let beta0 : ℚ := beta.sum
  let h ← mean_H_estimate ψ lnf alpha
  let cross : ℝ :=
    (List.zipWith (fun a b => (a : ℝ) / (alpha0 : ℝ) * (ψ (b : ℝ) - ψ ((beta0 : ℝ)))) alpha beta).sum
  let _ ← require "log"
  pure (h - cross / lnf 2)

/-! ## Extrapolation.  `scipy.polyfit` is an external least-squares routine,
passed in as the opaque parameter `polyfit` (arguments: x values, y values,
degree; result: coefficients, highest degree first). -/

/-- `kl_estimation(p_dict, q_dict, npoints, alpha, Ns)`: its first line
`ns = array([4,2,1], dtype='int64')` evaluates the unbound name `array` and
raises `NameError`; the rest of the body (per-block Bayesian estimates over
d ∈ {4,2,1}, then degree-2 fits of `Ns*Ns*estimate` against `Ns`, returning
the pair of leading coefficients, KL first) is dead code. -/
noncomputable def kl_estimation (ψ lnf : ℝ → ℝ)
    (polyfit : List ℝ → List ℝ → ℕ → List ℝ)
    (p_dict q_dict : Partition) (npoints : ℕ) (alpha : ℚ) (Ns : Option (List ℤ)) :
    Except Err (ℝ × ℝ) := do
  let _ ← require "array"
  let ns : List ℕ := [4, 2, 1]
  let _ ← require "zeros"
  let ests ← ns.mapM fun d => do
    let pblocks ← lookupKey p_dict d
    let qblocks ← lookupKey q_dict d
    let pairs ← (List.range d).mapM fun i => do
      let p ← getIdx pblocks i
      let q ← getIdx qblocks i
      let h ← mean_H_estimate ψ lnf (p.map fun x => x + alpha)
      let k ← mean_KL_estimate ψ lnf (p.map fun x => x + alpha) (q.map fun x => x + alpha)
      pure (h, k)
    pure ((pairs.map Prod.fst).sum / (d : ℝ), (pairs.map Prod.snd).sum / (d : ℝ))
  let NsR : List ℝ := match Ns with
    | none => ns.map fun d => ((npoints / d : ℕ) : ℝ)
    | some l => l.map fun x => (x : ℝ)
  let h_extr := polyfit NsR (List.zipWith (fun N h => N * N * h) NsR (ests.map Prod.fst)) 2
  let kl_extr := polyfit NsR (List.zipWith (fun N k => N * N * k) NsR (ests.map Prod.snd)) 2
  pure (kl_extr.headD 0, h_extr.headD 0)

/-- `h_estimation(p_dict, npoints, alpha, Ns)`: same structure as
`kl_estimation` without the KL part; its first line also evaluates the
unbound name `array` and raises `NameError`. -/
noncomputable def h_estimation (ψ lnf : ℝ → ℝ)
    (polyfit : List ℝ → List ℝ → ℕ → List ℝ)
    (p_dict : Partition) (npoints : ℕ) (alpha : ℚ) (Ns : Option (List ℤ)) :
    Except Err ℝ := do
  let _ ← require "array"
  let ns : List ℕ := [4, 2, 1]
  let _ ← require "zeros"
  let ests ← ns.mapM fun d => do
    let pblocks ← lookupKey p_dict d
    let hs ← (List.range d).mapM fun i => do
      let p ← getIdx pblocks i
      mean_H_estimate ψ lnf (p.map fun x => x + alpha)
    pure (hs.sum / (d : ℝ))
  let NsR : List ℝ := match Ns with
    | none => ns.map fun d => ((npoints / d : ℕ) : ℝ)
    | some l => l.map fun x => (x : ℝ)
  let h_extr := polyfit NsR (List.zipWith (fun N h => N * N * h) NsR ests) 2
  pure (h_extr.headD 0)

/-! ## Partition building and the consistency check -/

/-- `sm.astype('int32')` elementwise: numpy float-to-int conversion truncates
toward zero. -/
def qtrunc (x : ℚ) : ℤ := x.num / x.den

/-- Elementwise sum of two count vectors. -/
def elemAdd (a b : List ℚ) : List ℚ := List.zipWith (fun x y => x + y) a b

/-- One pass of the loop of `_check_dict_consistency` for a control key `d`:
the body `sm += array(distr[d][i])` evaluates the unbound name `array` (a
`NameError` as soon as the loop runs); the rest — the one-sided assertions
`assert scipy.sum(sm) - npoints < 1e-4` and
`assert scipy.all((sm.astype('int32') - array(distr[1][0])) < 1e-4)` —
is dead code. -/
def checkOne (distr : Partition) (npoints : ℕ) (d : ℕ) : Except Err Unit := do
  let _ ← require "array"
  let blocks ← lookupKey distr d
  let sm : List ℚ := match blocks with
    | [] => []
    | b :: bs => bs.foldl elemAdd b
  unless decide (sm.sum - (npoints : ℚ) < 1 / 10000) do
    throw Err.assertionError
  let _ ← require "array"
  let firstBlocks ← lookupKey distr 1
  let b0 ← getIdx firstBlocks 0
  unless (List.zipWith (fun a b => decide (((qtrunc a : ℚ) - b) < 1 / 10000)) sm b0).all id do
    throw Err.assertionError

/-- `_check_dict_consistency(distr, npoints)`: runs the loop body `checkOne`
for each `d` of `{2, 4}` that is a key of `distr`. -/
def _check_dict_consistency (distr : Partition) (npoints : ℕ) : Except Err Unit := do
  let control : List ℕ :=
    (if (distr.lookup 2).isSome then [2] else []) ++
      (if (distr.lookup 4).isSome then [4] else [])
  control.forM (checkOne distr npoints)

/-- One entry of the dict `states2dict` builds, for a nonzero block count
`d`: the `d` histograms of the contiguous chunks of length
`block_len = npoints//d` (Python 2 floor division; slices past the end
truncate). -/
def dictEntry (ys : List ℕ) (nchannels npoints d : ℕ) : ℕ × List (List ℚ) :=
  (d, (List.range d).map fun i =>
    states2distr ((ys.drop (i * (npoints / d))).take (npoints / d)) nchannels false)

/-- The build loop of `states2dict`: one entry per element of `fractions`,
in order.  For `d = 0` the line `block_len = npoints//d` raises Python's
`ZeroDivisionError` (ℕ division in Lean is total, so that path is modelled
explicitly); for `d > 0` the entry always builds. -/
def buildDict (ys : List ℕ) (nchannels npoints : ℕ) (fractions : List ℕ) :
    Except Err Partition :=
  fractions.mapM fun d =>
    if d = 0 then Except.error Err.zeroDivisionError
    else Except.ok (dictEntry ys nchannels npoints d)

/-- `states2dict(all_y, nchannels, npoints, fractions, shuffle)`: builds the
block-partition dict then runs `_check_dict_consistency`.
`scipy.random.permutation` / `scipy.take` (used only when `shuffle`) are
modelled by the opaque parameter `permute`. -/
def states2dict (permute : List ℕ → List ℕ) (all_y : List ℕ) (nchannels npoints : ℕ)
    (fractions : List ℕ) (shuffle : Bool) : Except Err Partition := do
  let ys := if shuffle then permute all_y else all_y
  let distr ← buildDict ys nchannels npoints fractions
  let _ ← _check_dict_consistency distr npoints
  pure distr

/-- `spikes2indep_dict(spikes, nchannels, npoints, fractions)`: computes the
per-channel marginals `p1`, then `indep_distr = zeros((nbins,))` evaluates
the unbound name `zeros` and raises `NameError`; the factorized distribution
(`s_bin[k]` is bit `nchannels-1-k` of `s`, via `scipy.binary_repr`), its
replication `[indep_distr*l] * d` with `l = npoints/d` (Python 2 integer
division), and the consistency check are dead code. -/
def spikes2indep_dict (spikes : List (List ℚ)) (nchannels npoints : ℕ)
    (fractions : List ℕ) : Except Err Partition := do
  let p1 : List ℚ :=
    (List.range nchannels).map fun k => (spikes.map fun r => r.getD k 0).sum / (spikes.length : ℚ)
  let nbins := 2 ^ nchannels
  let _ ← require "zeros"
  let indep_distr : List ℚ := (List.range nbins).map fun s =>
    ((List.range nchannels).map fun k =>
      if s / 2 ^ (nchannels - 1 - k) % 2 = 1 then p1.getD k 0 else 1 - p1.getD k 0).prod
  let distr : Partition := fractions.map fun d =>
    (d, List.replicate d (indep_distr.map fun x => x * ((npoints / d : ℕ) : ℚ)))
  let _ ← _check_dict_consistency distr npoints
  pure distr

/-! ## Shared lemmas: the unbound names -/

/-- `log` is not in the module namespace. -/
lemma require_log : require "log" = Except.error (Err.nameError "log") := rfl

/-- `array` is not in the module namespace. -/
lemma require_array : require "array" = Except.error (Err.nameError "array") := rfl

/-- `zeros` is not in the module namespace. -/
lemma require_zeros : require "zeros" = Except.error (Err.nameError "zeros") := rfl

lemma mean_H_estimate_err (ψ lnf : ℝ → ℝ) (alpha : List ℚ) :
    mean_H_estimate ψ lnf alpha = Except.error (Err.nameError "log") := rfl

lemma mean_KL_estimate_err (ψ lnf : ℝ → ℝ) (alpha beta : List ℚ) :
    mean_KL_estimate ψ lnf alpha beta = Except.error (Err.nameError "log") := rfl

lemma kl_estimation_err (ψ lnf : ℝ → ℝ) (polyfit : List ℝ → List ℝ → ℕ → List ℝ)
    (p_dict q_dict : Partition) (npoints : ℕ) (alpha : ℚ) (Ns : Option (List ℤ)) :
    kl_estimation ψ lnf polyfit p_dict q_dict npoints alpha Ns =
      Except.error (Err.nameError "array") := rfl

lemma h_estimation_err (ψ lnf : ℝ → ℝ) (polyfit : List ℝ → List ℝ → ℕ → List ℝ)
    (p_dict : Partition) (npoints : ℕ) (alpha : ℚ) (Ns : Option (List ℤ)) :
    h_estimation ψ lnf polyfit p_dict npoints alpha Ns =
      Except.error (Err.nameError "array") := rfl

lemma spikes2indep_dict_err (spikes : List (List ℚ)) (nchannels npoints : ℕ)
    (fractions : List ℕ) :
    spikes2indep_dict spikes nchannels npoints fractions =
      Except.error (Err.nameError "zeros") := rfl

lemma checkOne_err (distr : Partition) (npoints d : ℕ) :
    checkOne distr npoints d = Except.error (Err.nameError "array") := rfl

/-- The consistency check raises `NameError` as soon as its loop runs, i.e.
whenever `2` or `4` is a key of the dict. -/
lemma forM_checkOne_err (distr : Partition) (npoints a : ℕ) (t : List ℕ) :
    (a :: t).forM (checkOne distr npoints) = Except.error (Err.nameError "array") := rfl

lemma error_bind {α β : Type} (e : Err) (k : α → Except Err β) :
    (Except.error e >>= k) = Except.error e := rfl

lemma check_dict_err (distr : Partition) (npoints : ℕ)
    (h : (distr.lookup 2).isSome = true ∨ (distr.lookup 4).isSome = true) :
    _check_dict_consistency distr npoints = Except.error (Err.nameError "array") := by
  cases hc2 : (distr.lookup 2).isSome <;> cases hc4 : (distr.lookup 4).isSome
  · simp [hc2, hc4] at h
  all_goals simp [_check_dict_consistency, hc2, hc4, forM_checkOne_err, checkOne_err, error_bind]

lemma ok_bind {α β : Type} (a : α) (k : α → Except Err β) :
    (Except.ok a >>= k) = k a := rfl

/-- With no zero block count, the build loop succeeds and yields one entry
per element of `fractions`. -/
lemma buildDict_ok (ys : List ℕ) (nchannels npoints : ℕ) (fractions : List ℕ)
    (h0 : 0 ∉ fractions) :
    buildDict ys nchannels npoints fractions =
      Except.ok (fractions.map (dictEntry ys nchannels npoints)) := by
  unfold buildDict
  induction fractions with
  | nil => rfl
  | cons a t ih =>
    have ha : ¬a = 0 := fun h => h0 (h ▸ List.mem_cons_self a t)
    have ht : 0 ∉ t := fun h => h0 (List.mem_cons_of_mem a h)
    rw [List.mapM_cons, if_neg ha, ih ht]
    rfl

/-- With a zero block count anywhere in `fractions`, the build loop raises
`ZeroDivisionError` (at `block_len = npoints//0`) before the consistency
check ever runs. -/
lemma buildDict_zero (ys : List ℕ) (nchannels npoints : ℕ) (fractions : List ℕ)
    (h0 : 0 ∈ fractions) :
    buildDict ys nchannels npoints fractions = Except.error Err.zeroDivisionError := by
  unfold buildDict
  induction fractions with
  | nil => exact absurd h0 (List.not_mem_nil 0)
  | cons a t ih =>
    rw [List.mapM_cons]
    by_cases ha : a = 0
    · rw [if_pos ha]
      rfl
    · have ht : 0 ∈ t := by
        rcases List.mem_cons.mp h0 with h | h
        · exact absurd h.symm ha
        · exact h
      rw [if_neg ha, ok_bind, ih ht]
      rfl

/-- Keys of a successfully built dict: one entry per element of `fractions`,
keyed by it. -/
lemma lookup_map_dictEntry (ys : List ℕ) (nchannels npoints : ℕ)
    (fractions : List ℕ) (k : ℕ) :
    ((fractions.map (dictEntry ys nchannels npoints)).lookup k).isSome =
      decide (k ∈ fractions) := by
  induction fractions with
  | nil => simp [List.lookup]
  | cons a t ih =>
    by_cases h : k = a
    · simp [List.lookup, dictEntry, h]
    · have hb : (k == a) = false := beq_eq_false_iff_ne.mpr h
      simp [List.lookup, dictEntry, hb, h, ih]

lemma states2dict_err (permute : List ℕ → List ℕ) (all_y : List ℕ)
    (nchannels npoints : ℕ) (fractions : List ℕ) (shuffle : Bool)
    (h : 2 ∈ fractions ∨ 4 ∈ fractions) (h0 : 0 ∉ fractions) :
    states2dict permute all_y nchannels npoints fractions shuffle =
      Except.error (Err.nameError "array") := by
  have hbd := buildDict_ok (if shuffle then permute all_y else all_y) nchannels npoints
    fractions h0
  have hck : _check_dict_consistency
      (fractions.map (dictEntry (if shuffle then permute all_y else all_y) nchannels npoints))
      npoints = Except.error (Err.nameError "array") := by
    apply check_dict_err
    rcases h with h | h
    · exact Or.inl (by rw [lookup_map_dictEntry]; exact decide_eq_true h)
    · exact Or.inr (by rw [lookup_map_dictEntry]; exact decide_eq_true h)
  unfold states2dict
  simp only []
  simp only [hbd, ok_bind, hck, error_bind]

/-- With a zero block count, `states2dict` raises `ZeroDivisionError` from
the build loop, whatever else `fractions` contains. -/
lemma states2dict_zero_div (permute : List ℕ → List ℕ) (all_y : List ℕ)
    (nchannels npoints : ℕ) (fractions : List ℕ) (shuffle : Bool)
    (h0 : 0 ∈ fractions) :
    states2dict permute all_y nchannels npoints fractions shuffle =
      Except.error Err.zeroDivisionError := by
  have hbd := buildDict_zero (if shuffle then permute all_y else all_y) nchannels npoints
    fractions h0
  unfold states2dict
  simp only []
  simp only [hbd, error_bind]

/-! ## Claim theorems: the unbound-name family -/

/-- C1: `mean_H_estimate` never returns the digamma formula: for every input
(and any interpretation of the external `digamma` and of what `log` would
denote), evaluating the return line raises `NameError` on the unbound name
`log`. -/
theorem mean_H_estimate_raises_nameError :
    ∀ (ψ lnf : ℝ → ℝ) (alpha : List ℚ),
      mean_H_estimate ψ lnf alpha = Except.error (Err.nameError "log") :=
  mean_H_estimate_err

/-- C2: `kl_estimation` and `h_estimation` never reach the per-block
estimates or the quadratic fit: their first line `ns = array([4,2,1], ...)`
raises `NameError` on the unbound name `array`, for every input. -/
theorem estimation_raises_nameError :
    ∀ (ψ lnf : ℝ → ℝ) (polyfit : List ℝ → List ℝ → ℕ → List ℝ)
      (p_dict q_dict : Partition) (npoints : ℕ) (alpha : ℚ) (Ns : Option (List ℤ)),
      kl_estimation ψ lnf polyfit p_dict q_dict npoints alpha Ns =
          Except.error (Err.nameError "array") ∧
        h_estimation ψ lnf polyfit p_dict npoints alpha Ns =
          Except.error (Err.nameError "array") :=
  fun ψ lnf polyfit p_dict q_dict npoints alpha Ns =>
    ⟨kl_estimation_err ψ lnf polyfit p_dict q_dict npoints alpha Ns,
      h_estimation_err ψ lnf polyfit p_dict npoints alpha Ns⟩

/-- C8: `spikes2indep_dict` never builds the factorized distribution: the
line `indep_distr = zeros((nbins,))` raises `NameError` on the unbound name
`zeros`, for every input. -/
theorem spikes2indep_dict_raises_nameError :
    ∀ (spikes : List (List ℚ)) (nchannels npoints : ℕ) (fractions : List ℕ),
      spikes2indep_dict spikes nchannels npoints fractions =
        Except.error (Err.nameError "zeros") :=
  spikes2indep_dict_err

/-- C4: the consistency check never guards anything.  With the default
fractions `[1,2,4]` `states2dict` raises `NameError` (`array` is unbound in
`_check_dict_consistency`) instead of returning or raising a consistency
error; with `fractions = [1]` the check's loop body never runs, and
`states2dict` returns a partition whose total count (1) differs from the
supplied `npoints` (5) without any error. -/
theorem states2dict_never_checks :
    states2dict id [0, 0, 0, 0] 1 4 [1, 2, 4] false =
        Except.error (Err.nameError "array") ∧
      states2dict id [0] 1 5 [1] false = Except.ok [(1, [[1, 0]])] ∧
      ([(1 : ℚ), 0].sum ≠ (5 : ℚ)) := by
  refine ⟨states2dict_err _ _ _ _ _ _ (Or.inl (by decide)) (by decide), ?_, by norm_num⟩
  unfold states2dict
  simp only [Bool.false_eq_true, if_false]
  have hbd : buildDict [0] 1 5 [1] = Except.ok [dictEntry [0] 1 5 1] := rfl
  have hck : _check_dict_consistency [dictEntry [0] 1 5 1] 5 = Except.ok () := rfl
  simp only [hbd, ok_bind, hck]
  norm_num [dictEntry, states2distr, histBin, List.range_succ, List.countP_cons]
  rfl

/-- C10 (amended): the five functions `mean_H_estimate`, `mean_KL_estimate`,
`kl_estimation`, `h_estimation` and `spikes2indep_dict` raise `NameError` on
every input; `states2dict` raises `NameError` whenever its `fractions`
contain 2 or 4 but not 0 (in particular for the default `[1,2,4]`), because
the unbound name `array` sits inside the consistency loop over the keys 2
and 4 — while any 0 in `fractions` raises `ZeroDivisionError` at
`block_len = npoints//0` during the build, before the check runs. -/
theorem unbound_names_raise :
    (∀ (ψ lnf : ℝ → ℝ) (alpha : List ℚ),
        mean_H_estimate ψ lnf alpha = Except.error (Err.nameError "log")) ∧
      (∀ (ψ lnf : ℝ → ℝ) (alpha beta : List ℚ),
        mean_KL_estimate ψ lnf alpha beta = Except.error (Err.nameError "log")) ∧
      (∀ (ψ lnf : ℝ → ℝ) (polyfit : List ℝ → List ℝ → ℕ → List ℝ)
          (p_dict q_dict : Partition) (npoints : ℕ) (alpha : ℚ) (Ns : Option (List ℤ)),
        kl_estimation ψ lnf polyfit p_dict q_dict npoints alpha Ns =
            Except.error (Err.nameError "array") ∧
          h_estimation ψ lnf polyfit p_dict npoints alpha Ns =
            Except.error (Err.nameError "array")) ∧
      (∀ (permute : List ℕ → List ℕ) (all_y : List ℕ) (nchannels npoints : ℕ)
          (fractions : List ℕ) (shuffle : Bool),
        ((2 ∈ fractions ∨ 4 ∈ fractions) → 0 ∉ fractions →
          states2dict permute all_y nchannels npoints fractions shuffle =
            Except.error (Err.nameError "array")) ∧
          (0 ∈ fractions →
            states2dict permute all_y nchannels npoints fractions shuffle =
              Except.error Err.zeroDivisionError)) ∧
      (∀ (spikes : List (List ℚ)) (nchannels npoints : ℕ) (fractions : List ℕ),
        spikes2indep_dict spikes nchannels npoints fractions =
          Except.error (Err.nameError "zeros")) :=
  ⟨mean_H_estimate_err, mean_KL_estimate_err,
    fun ψ lnf polyfit p_dict q_dict npoints alpha Ns =>
      ⟨kl_estimation_err ψ lnf polyfit p_dict q_dict npoints alpha Ns,
        h_estimation_err ψ lnf polyfit p_dict npoints alpha Ns⟩,
    fun permute all_y nchannels npoints fractions shuffle =>
      ⟨states2dict_err permute all_y nchannels npoints fractions shuffle,
        states2dict_zero_div permute all_y nchannels npoints fractions shuffle⟩,
    spikes2indep_dict_err⟩

/-- C10 counterexample: `states2dict` does NOT raise `NameError` on every
input — with `fractions = [1]` the consistency loop body (the only place its
unbound name occurs) never runs, and the call returns normally. -/
theorem states2dict_returns_without_keys_2_4 :
    states2dict id [0] 1 1 [1] false = Except.ok [(1, [[1, 0]])] := by
  unfold states2dict
  simp only [Bool.false_eq_true, if_false]
  have hbd : buildDict [0] 1 1 [1] = Except.ok [dictEntry [0] 1 1 1] := rfl
  have hck : _check_dict_consistency [dictEntry [0] 1 1 1] 1 = Except.ok () := rfl
  simp only [hbd, ok_bind, hck]
  norm_num [dictEntry, states2distr, histBin, List.range_succ, List.countP_cons]
  rfl

/-- C5 (amended): with fewer than 3 distinct block-count keys in the input
partition (as with any other input), `kl_estimation` and `h_estimation` fail
with `NameError` on the unbound name `array` — not with any
insufficient-data error — before the quadratic fit is ever attempted, so no
degenerate fit value is returned. -/
theorem estimation_few_keys_raises_nameError :
    ∀ (ψ lnf : ℝ → ℝ) (polyfit : List ℝ → List ℝ → ℕ → List ℝ)
      (p_dict q_dict : Partition) (npoints : ℕ) (alpha : ℚ) (Ns : Option (List ℤ)),
      (p_dict.map Prod.fst).dedup.length < 3 →
      kl_estimation ψ lnf polyfit p_dict q_dict npoints alpha Ns =
          Except.error (Err.nameError "array") ∧
        h_estimation ψ lnf polyfit p_dict npoints alpha Ns =
          Except.error (Err.nameError "array") :=
  fun ψ lnf polyfit p_dict q_dict npoints alpha Ns _ =>
    ⟨kl_estimation_err ψ lnf polyfit p_dict q_dict npoints alpha Ns,
      h_estimation_err ψ lnf polyfit p_dict npoints alpha Ns⟩

theorem estimation_few_keys_raises_nameError_witness :
    kl_estimation (fun _ => 0) (fun _ => 0) (fun _ _ _ => [])
          [(1, [[7, 0]])] [(1, [[7, 0]])] 7 1 none =
        Except.error (Err.nameError "array") ∧
      h_estimation (fun _ => 0) (fun _ => 0) (fun _ _ _ => []) [(1, [[7, 0]])] 7 1 none =
        Except.error (Err.nameError "array") :=
  estimation_few_keys_raises_nameError (fun _ => 0) (fun _ => 0) (fun _ _ _ => [])
    [(1, [[7, 0]])] [(1, [[7, 0]])] 7 1 none (by simp)

/-- C5 counterexample: on a partition with only the two block-count keys
{1, 2}, `kl_estimation` raises `NameError` on the unbound name `array`,
which is not the spec's `InsufficientDataError`. -/
theorem kl_estimation_two_keys_not_insufficientData :
    kl_estimation (fun _ => 0) (fun _ => 0) (fun _ _ _ => [])
          [(1, [[4, 0]]), (2, [[2, 0], [2, 0]])] [(1, [[4, 0]]), (2, [[2, 0], [2, 0]])]
          4 1 none =
        Except.error (Err.nameError "array") ∧
      Err.nameError "array" ≠ Err.insufficientData :=
  ⟨kl_estimation_err _ _ _ _ _ _ _ _, by decide⟩

/-- C6: `spikes2states` accepts the non-binary matrix `[[0.5]]` without any
error (its check is `0 <= x <= 1`, not `x ∈ {0, 1}`), returning the
fractional "state" 0.5. -/
theorem spikes2states_accepts_half :
    spikes2states [[1 / 2]] = Except.ok [1 / 2] ∧
      ((1 : ℚ) / 2 ≠ 0 ∧ (1 : ℚ) / 2 ≠ 1) := by
  constructor
  · norm_num [spikes2states, rowState, Finset.sum_range_succ]
  · norm_num

/-! ## Claim theorems: the direct entropy estimator -/

lemma entropy_pos_eq (p : List ℚ) (hp : ∀ x ∈ p, x ≠ 0) :
    entropy p = Except.ok ((p.map fun x : ℚ => (x : ℝ) * Real.logb 2 (x : ℝ)).sum) := by
  unfold entropy
  rw [if_neg]
  rw [Bool.not_eq_true, List.any_eq_false]
  intro x hx
  simpa using hp x hx

lemma logb_two_inv_pow (C : ℕ) : Real.logb 2 (1 / (2 : ℝ) ^ C) = -(C : ℝ) := by
  rw [one_div, Real.logb_inv, Real.logb_pow, Real.logb_self_eq_one one_lt_two, mul_one]

lemma entropy_uniform (C : ℕ) :
    entropy (List.replicate (2 ^ C) ((1 : ℚ) / 2 ^ C)) = Except.ok (-(C : ℝ)) := by
  have hpos : ∀ x ∈ List.replicate (2 ^ C) ((1 : ℚ) / 2 ^ C), x ≠ 0 := by
    intro x hx
    rw [List.eq_of_mem_replicate hx]
    exact ne_of_gt (by positivity)
  have hcast : (((1 : ℚ) / 2 ^ C : ℚ) : ℝ) = 1 / (2 : ℝ) ^ C := by push_cast; ring
  rw [entropy_pos_eq _ hpos, List.map_replicate, hcast, logb_two_inv_pow,
    List.sum_replicate, nsmul_eq_mul]
  have h2 : ((2 : ℝ)) ^ C ≠ 0 := by positivity
  simp only [Except.ok.injEq]
  push_cast
  field_simp
  ring

lemma entropy_quarter : entropy [1 / 4, 1 / 4, 1 / 4, 1 / 4] = Except.ok (-2) := by
  have hl : [1 / 4, 1 / 4, 1 / 4, 1 / 4] = List.replicate (2 ^ 2) ((1 : ℚ) / 2 ^ 2) := by
    norm_num [List.replicate]
  rw [hl, entropy_uniform]
  norm_num

/-- C3 (amended): on a strictly positive distribution, `entropy` returns the
POSITIVE sum `∑ p(x)·log2 p(x)` — the negative of the Shannon entropy — so
the uniform distribution over `2^C` states gives `-C` bits and
`[0.25, 0.25, 0.25, 0.25]` gives `-2.0` bits. -/
theorem entropy_returns_negated_entropy :
    (∀ p : List ℚ, (∀ x ∈ p, x ≠ 0) →
        entropy p = Except.ok ((p.map fun x : ℚ => (x : ℝ) * Real.logb 2 (x : ℝ)).sum)) ∧
      (∀ C : ℕ, entropy (List.replicate (2 ^ C) ((1 : ℚ) / 2 ^ C)) = Except.ok (-(C : ℝ))) ∧
      entropy [1 / 4, 1 / 4, 1 / 4, 1 / 4] = Except.ok (-2) :=
  ⟨entropy_pos_eq, entropy_uniform, entropy_quarter⟩

/-- C3 counterexample: `entropy([0.25]*4)` is `-2.0`, not the claimed
`+2.0`. -/
theorem entropy_quarter_ne_two :
    entropy [1 / 4, 1 / 4, 1 / 4, 1 / 4] = Except.ok (-2 : ℝ) ∧ (-2 : ℝ) ≠ 2 :=
  ⟨entropy_quarter, by norm_num⟩

/-! ## Claim theorems: the histogram -/

lemma sum_range_list (n : ℕ) (f : ℕ → ℚ) :
    ((List.range n).map f).sum = ∑ j in Finset.range n, f j := by
  induction n with
  | zero => simp
  | succ n ih =>
    rw [List.range_succ, List.map_append, List.sum_append, Finset.sum_range_succ, ih]
    simp

/-- For an in-range state, the last numpy bin's closed right edge is
irrelevant: every bin only collects the states equal to its index. -/
lemma histBin_of_lt (nbins j s : ℕ) (hs : s < nbins) (hj : j < nbins) :
    (histBin nbins j s = true) ↔ (s = j) := by
  unfold histBin
  by_cases h : j = nbins - 1
  · rw [if_pos h]
    subst h
    simp only [Bool.and_eq_true, decide_eq_true_eq]
    omega
  · rw [if_neg h]
    simp

lemma countP_eq_sum (l : List ℕ) (n : ℕ) (h : ∀ s ∈ l, s < n) :
    ∑ j in Finset.range n, ((l.countP fun s => decide (s = j) : ℕ) : ℚ) = l.length := by
  induction l with
  | nil => simp
  | cons a t ih =>
    have ha : a < n := h a (List.mem_cons_self a t)
    have ht : ∀ s ∈ t, s < n := fun s hs => h s (List.mem_cons_of_mem a hs)
    simp only [List.countP_cons, List.length_cons, decide_eq_true_eq, Nat.cast_add,
      Nat.cast_ite, Nat.cast_one, Nat.cast_zero]
    rw [Finset.sum_add_distrib, ih ht]
    have hone : ∑ j in Finset.range n, (if a = j then (1 : ℚ) else 0) = 1 := by
      rw [Finset.sum_ite_eq]
      simp [Finset.mem_range.mpr ha]
    rw [hone]

lemma states2distr_sum_eq (states : List ℕ) (C : ℕ) (h : ∀ s ∈ states, s < 2 ^ C) :
    (states2distr states C false).sum = (states.length : ℚ) := by
  unfold states2distr
  simp only [Bool.false_eq_true, if_false]
  rw [sum_range_list]
  have hc : ∀ j ∈ Finset.range (2 ^ C),
      ((states.countP (histBin (2 ^ C) j) : ℕ) : ℚ) =
        ((states.countP fun s => decide (s = j) : ℕ) : ℚ) := by
    intro j hj
    congr 1
    apply List.countP_congr
    intro s hs
    rw [histBin_of_lt _ _ _ (h s hs) (Finset.mem_range.mp hj)]
    simp
  rw [Finset.sum_congr rfl hc, countP_eq_sum states _ h]

lemma states2distr_length (states : List ℕ) (C : ℕ) (normed : Bool) :
    (states2distr states C normed).length = 2 ^ C := by
  unfold states2distr
  cases normed <;> simp

/-- C9: an unnormalized histogram has `2^C` bins and, when every state is in
range, its entries sum to the sequence length; on 100 zero states with C = 3
it is `[100, 0, 0, 0, 0, 0, 0, 0]`. -/
theorem states2distr_counts_sum :
    (∀ (states : List ℕ) (C : ℕ), (∀ s ∈ states, s < 2 ^ C) →
        (states2distr states C false).length = 2 ^ C ∧
          (states2distr states C false).sum = (states.length : ℚ)) ∧
      states2distr (List.replicate 100 0) 3 false = [100, 0, 0, 0, 0, 0, 0, 0] := by
  refine ⟨fun states C h =>
    ⟨states2distr_length states C false, states2distr_sum_eq states C h⟩, ?_⟩
  norm_num [states2distr, histBin, List.range_succ, List.countP_replicate]

/-! ## Claim theorems: the encoder bijection -/

/-- The integer value of a binary word, most significant digit first: the ℕ
counterpart of `rowState`. -/
def bitsToNat (r : List ℕ) : ℕ :=
  ∑ k in Finset.range r.length, r.getD k 0 * 2 ^ (r.length - 1 - k)

/-- The inverse bit-weighting decoder: digit `k` of the word is bit
`C - 1 - k` of the integer. -/
def natToBits (C n : ℕ) : List ℕ :=
  (List.range C).map fun k => n / 2 ^ (C - 1 - k) % 2

/-- The decoder landing in the rational-valued rows `spikes2states` reads. -/
def decodeRow (C n : ℕ) : List ℚ :=
  (natToBits C n).map fun b : ℕ => (b : ℚ)

lemma bitsToNat_cons (b : ℕ) (r : List ℕ) :
    bitsToNat (b :: r) = b * 2 ^ r.length + bitsToNat r := by
  unfold bitsToNat
  rw [List.length_cons, Finset.sum_range_succ']
  simp only [List.getD_cons_succ, List.getD_cons_zero, Nat.add_sub_cancel, Nat.sub_zero]
  rw [add_comm]
  congr 1
  apply Finset.sum_congr rfl
  intro k _
  congr 2
  omega

lemma bitsToNat_lt (r : List ℕ) (h : ∀ x ∈ r, x ≤ 1) : bitsToNat r < 2 ^ r.length := by
  induction r with
  | nil => simp [bitsToNat]
  | cons b t ih =>
    rw [bitsToNat_cons, List.length_cons]
    have hb : b ≤ 1 := h b (List.mem_cons_self b t)
    have ht := ih fun x hx => h x (List.mem_cons_of_mem b hx)
    have h1 : b * 2 ^ t.length ≤ 2 ^ t.length := by
      calc b * 2 ^ t.length ≤ 1 * 2 ^ t.length := Nat.mul_le_mul_right _ hb
        _ = 2 ^ t.length := one_mul _
    calc b * 2 ^ t.length + bitsToNat t < 2 ^ t.length + 2 ^ t.length :=
          Nat.add_lt_add_of_le_of_lt h1 ht
      _ = 2 ^ (t.length + 1) := by rw [pow_succ, Nat.mul_two]

lemma natToBits_length (C n : ℕ) : (natToBits C n).length = C := by simp [natToBits]

lemma natToBits_succ (C n : ℕ) :
    natToBits (C + 1) n = (n / 2 ^ C % 2) :: natToBits C n := by
  unfold natToBits
  rw [List.range_succ_eq_map, List.map_cons, List.map_map]
  congr 1
  apply List.map_congr_left
  intro a _
  simp only [Function.comp_apply]
  have he : C + 1 - 1 - Nat.succ a = C - 1 - a := by omega
  rw [he]

/-- Bits below position `C` ignore any multiple of `2 ^ C`. -/
lemma bit_add_mul_pow (t q j C : ℕ) (hj : j < C) :
    (t + q * 2 ^ C) / 2 ^ j % 2 = t / 2 ^ j % 2 := by
  have hsplit : q * 2 ^ C = 2 ^ j * (q * 2 ^ (C - j)) := by
    rw [← mul_assoc, mul_comm (2 ^ j) q, mul_assoc, ← pow_add]
    congr 2
    omega
  rw [hsplit, Nat.add_mul_div_left _ _ (pow_pos two_pos j)]
  have h2 : q * 2 ^ (C - j) = q * 2 ^ (C - j - 1) * 2 := by
    rw [mul_assoc, ← pow_succ]
    congr 2
    omega
  rw [h2, Nat.add_mul_mod_self_right]

lemma natToBits_add_mul (t q C : ℕ) : natToBits C (t + q * 2 ^ C) = natToBits C t := by
  unfold natToBits
  apply List.map_congr_left
  intro k hk
  have hk' : k < C := List.mem_range.mp hk
  exact bit_add_mul_pow t q (C - 1 - k) C (by omega)

/-- Decoding after encoding recovers any binary word. -/
lemma natToBits_bitsToNat (r : List ℕ) (h : ∀ x ∈ r, x ≤ 1) :
    natToBits r.length (bitsToNat r) = r := by
  induction r with
  | nil => rfl
  | cons b t ih =>
    have hb : b ≤ 1 := h b (List.mem_cons_self b t)
    have ht : ∀ x ∈ t, x ≤ 1 := fun x hx => h x (List.mem_cons_of_mem b hx)
    have hlt := bitsToNat_lt t ht
    rw [List.length_cons, bitsToNat_cons, natToBits_succ]
    congr 1
    · rw [Nat.add_comm, Nat.add_mul_div_right _ _ (pow_pos two_pos t.length),
        Nat.div_eq_of_lt hlt]
      omega
    · rw [Nat.add_comm, natToBits_add_mul, ih ht]

/-- Encoding after decoding recovers any integer below `2 ^ C`. -/
lemma bitsToNat_natToBits (C : ℕ) : ∀ n : ℕ, n < 2 ^ C → bitsToNat (natToBits C n) = n := by
  induction C with
  | zero =>
    intro n hn
    interval_cases n
    rfl
  | succ C ih =>
    intro n hn
    rw [natToBits_succ, bitsToNat_cons, natToBits_length]
    have hmod : n % 2 ^ C < 2 ^ C := Nat.mod_lt _ (pow_pos two_pos C)
    have hrw : natToBits C n = natToBits C (n % 2 ^ C) := by
      conv_lhs => rw [show n = n % 2 ^ C + n / 2 ^ C * 2 ^ C from (Nat.mod_add_div' n _).symm]
      rw [natToBits_add_mul]
    rw [hrw, ih _ hmod]
    have hdiv : n / 2 ^ C < 2 := by
      rw [Nat.div_lt_iff_lt_mul (pow_pos two_pos C)]
      calc n < 2 ^ (C + 1) := hn
        _ = 2 * 2 ^ C := by rw [pow_succ]; ring
    rw [Nat.mod_eq_of_lt hdiv]
    exact Nat.div_add_mod' n (2 ^ C)

lemma getD_map_ratCast (r : List ℕ) (k : ℕ) :
    ((r.map fun b : ℕ => (b : ℚ)).getD k 0) = ((r.getD k 0 : ℕ) : ℚ) := by
  rw [List.getD_eq_getElem?_getD, List.getD_eq_getElem?_getD, List.getElem?_map]
  cases h : r[k]? <;> simp

/-- `rowState` agrees with the ℕ-level encoder on cast rows. -/
lemma rowState_map_cast (r : List ℕ) :
    rowState r.length (r.map fun b : ℕ => (b : ℚ)) = (bitsToNat r : ℚ) := by
  unfold rowState bitsToNat
  push_cast
  apply Finset.sum_congr rfl
  intro k _
  rw [getD_map_ratCast]

/-- Reading a binary ℚ-row back as a ℕ bit word. -/
def toBits (r : List ℚ) : List ℕ := r.map fun x => if x = 1 then 1 else 0

lemma toBits_le_one (r : List ℚ) : ∀ x ∈ toBits r, x ≤ 1 := by
  intro x hx
  simp only [toBits, List.mem_map] at hx
  obtain ⟨y, _, rfl⟩ := hx
  split <;> omega

lemma toBits_length (r : List ℚ) : (toBits r).length = r.length := List.length_map r _

lemma map_cast_toBits (r : List ℚ) (h : ∀ x ∈ r, x = 0 ∨ x = 1) :
    ((toBits r).map fun b : ℕ => (b : ℚ)) = r := by
  unfold toBits
  rw [List.map_map]
  conv_rhs => rw [← List.map_id r]
  apply List.map_congr_left
  intro x hx
  rcases h x hx with h0 | h1
  · subst h0; norm_num [Function.comp]
  · subst h1; norm_num [Function.comp]

lemma natToBits_mem_le_one (C n : ℕ) : ∀ x ∈ natToBits C n, x ≤ 1 := by
  intro x hx
  simp only [natToBits, List.mem_map] at hx
  obtain ⟨k, _, rfl⟩ := hx
  have := Nat.mod_lt (n / 2 ^ (C - 1 - k)) (show 0 < 2 by norm_num)
  omega

/-- C7: restricted to binary rows of any length C ≥ 1, the row-to-state map
is a bijection onto `[0, 2^C)` whose two-sided inverse is the bit-weighting
decoder `decodeRow` (bit `C-1-k` of the state is channel `k` of the row);
concretely the four 2-channel patterns map to the states `[0, 2, 1, 3]`. -/
theorem spikes2states_bijection :
    (∀ C : ℕ, 1 ≤ C →
      (∀ n : ℕ, n < 2 ^ C →
        (decodeRow C n).length = C ∧ (∀ x ∈ decodeRow C n, x = 0 ∨ x = 1) ∧
          rowState C (decodeRow C n) = (n : ℚ)) ∧
      (∀ r : List ℚ, r.length = C → (∀ x ∈ r, x = 0 ∨ x = 1) →
        ∃ n : ℕ, n < 2 ^ C ∧ rowState C r = (n : ℚ) ∧ decodeRow C n = r)) ∧
    spikes2states [[0, 0], [1, 0], [0, 1], [1, 1]] = Except.ok [0, 2, 1, 3] := by
  constructor
  · intro C _
    constructor
    · intro n hn
      refine ⟨by simp [decodeRow, natToBits_length], ?_, ?_⟩
      · intro x hx
        simp only [decodeRow, List.mem_map] at hx
        obtain ⟨b, hb, rfl⟩ := hx
        have := natToBits_mem_le_one C n b hb
        interval_cases b
        · exact Or.inl (by norm_num)
        · exact Or.inr (by norm_num)
      · have hcast := rowState_map_cast (natToBits C n)
        rw [natToBits_length] at hcast
        unfold decodeRow
        rw [hcast, bitsToNat_natToBits C n hn]
    · intro r hlen hbin
      refine ⟨bitsToNat (toBits r), ?_, ?_, ?_⟩
      · have h1 := bitsToNat_lt (toBits r) (toBits_le_one r)
        rwa [toBits_length, hlen] at h1
      · have hcast := rowState_map_cast (toBits r)
        rw [toBits_length, hlen] at hcast
        conv_lhs => rw [← map_cast_toBits r hbin]
        exact hcast
      · unfold decodeRow
        have hC : C = (toBits r).length := by rw [toBits_length, hlen]
        rw [hC, natToBits_bitsToNat (toBits r) (toBits_le_one r), map_cast_toBits r hbin]
  · norm_num [spikes2states, rowState, Finset.sum_range_succ]

/-- C7 witness: the bijection at C = 1, n = 1: decoding 1 gives the row [1]
and encoding it back gives 1. -/
theorem spikes2states_bijection_witness :
    rowState 1 (decodeRow 1 1) = ((1 : ℕ) : ℚ) :=
  ((spikes2states_bijection.1 1 le_rfl).1 1 (by norm_num)).2.2
